import Mathlib

/-!
Shallow embedding of `MercadoLivrePriceOptimizer.py` (and the shared helpers
of `mercado_livre_price_optimizer.py`) from the repository
`price-optimiser-for-Mercado-Livre-sales-with-python`.

Python strings are modelled as `List Char` on the parsing side and as Lean
`String` on the formatting side; Python floats are modelled as exact
rationals (`ℚ`), with Python's `round` / `"%.2f"` formatting modelled as
round-half-to-even on the exact value, which is CPython's documented
behaviour on the shortest-decimal reading of a double.
-/

namespace MLPO

/-- Convert a Lean string literal to the `List Char` model of Python strings. -/
def str (s : String) : List Char := s.data

/-- Python `str.isspace` characters relevant to `str.strip()` (ASCII subset). -/
def isPySpace (c : Char) : Bool :=
  c = ' ' || c = '\t' || c = '\n' || c = '\r' || c = '\x0b' || c = '\x0c'

/-- Python `s.strip()`: drop leading and trailing whitespace. -/
def pyStrip (s : List Char) : List Char :=
  ((s.dropWhile isPySpace).reverse.dropWhile isPySpace).reverse

/-- Python `s.replace("R$", "")`: left-to-right, non-overlapping removal of
every occurrence of the two-character pattern `R$`. -/
def removeRS : List Char → List Char
  | [] => []
  | [c] => [c]
  | a :: b :: rest =>
    if a = 'R' ∧ b = '$' then removeRS rest else a :: removeRS (b :: rest)

/-- The cleaning pipeline of `_parse_price`:
`s.strip().replace("R$", "").replace(" ", "")`. -/
def cleanPrice (s : List Char) : List Char :=
  (removeRS (pyStrip s)).filter (fun c => c ≠ ' ')

/-- Value of a list of decimal digit characters (most significant first). -/
def digitsToNat (l : List Char) : ℕ :=
  l.foldl (fun a c => 10 * a + (c.toNat - '0'.toNat)) 0

/-- Python `float(s)` on the digit/sign/dot fragment of its grammar: optional
surrounding whitespace, optional sign, digits with at most one dot and at
least one digit.  Exponents, `inf`/`nan` and underscores are outside the
fragment exercised by this program and are mapped to `none`. -/
def pyFloat (s0 : List Char) : Option ℚ :=
  let s1 := pyStrip s0
  let s := if s1.head? = some '-' ∨ s1.head? = some '+' then s1.tail else s1
  let sgn : ℚ := if s1.head? = some '-' then -1 else 1
  if s ≠ [] ∧ (∀ c ∈ s, c.isDigit = true ∨ c = '.') ∧ s.count '.' ≤ 1 ∧
      (∃ c ∈ s, c.isDigit = true) then
    let ip := s.takeWhile (fun c => c ≠ '.')
    let fp := (s.dropWhile (fun c => c ≠ '.')).drop 1
    some (sgn * ((digitsToNat ip : ℚ) + (digitsToNat fp : ℚ) / 10 ^ fp.length))
  else none

/-- Python `s.replace(",", ".")` (single-character replacement is a map). -/
def commaToDot (c : Char) : Char := if c = ',' then '.' else c

/-- `_parse_price` from the source: strip, drop `R$` and spaces, then
disambiguate separators (both present: dot is thousands, comma is decimal;
only comma: comma is decimal) and parse with `float`. -/
def parse_price (s : List Char) : Option ℚ :=
  let t := cleanPrice s
  if ',' ∈ t ∧ '.' ∈ t then
    pyFloat ((t.filter (fun c => c ≠ '.')).map commaToDot)
  else if ',' ∈ t then
    pyFloat (t.map commaToDot)
  else
    pyFloat t

/-- The failure modes of `_read_input` (both variants raise `ValueError`;
the constructors record which guard fired and with which message family). -/
inductive InputErr where
  | formatError
  | parseError (line : List Char)
  | validationError
deriving DecidableEq, Repr

/-- `_read_input` from the source: keep non-empty stripped lines, require at
least three, parse lines 2 and 3 as prices, require both positive. -/
def read_input (lines : List (List Char)) : Except InputErr (List Char × ℚ × ℚ) :=
  match (lines.map pyStrip).filter (fun l => l ≠ []) with
  | name :: l1 :: l2 :: _ =>
    match parse_price l1 with
    | none => .error (.parseError l1)
    | some p1 =>
      match parse_price l2 with
      | none => .error (.parseError l2)
      | some p2 =>
        if p1 ≤ 0 ∨ p2 ≤ 0 then .error .validationError
        else .ok (name, p1, p2)
  | _ => .error .formatError

/-- Round a rational to an integer, ties to even (CPython's rounding of an
exact value in `round` and in fixed-point string formatting). -/
def roundHalfEven (q : ℚ) : ℤ :=
  let n := ⌊q⌋
  let r := q - n
  if r < 1/2 then n
  else if 1/2 < r then n + 1
  else if n % 2 = 0 then n else n + 1

/-- Python `round(x, 2)` on an exact value. -/
def pyRound2 (q : ℚ) : ℚ := (roundHalfEven (q * 100) : ℚ) / 100

/-- Round a rational to an integer with ties away from zero.  This follows
the specification's words ("round-half-away-from-zero", "standard half-up
rounding") and exists only to be compared with `roundHalfEven`, which is
what the code does. -/
def roundHalfAway (q : ℚ) : ℤ :=
  let n := ⌊q⌋
  let r := q - n
  if r < 1/2 then n
  else if 1/2 < r then n + 1
  else if q < 0 then n else n + 1

/-- Rounding to 2 decimals with ties away from zero, per the spec's words. -/
def specRound2Away (q : ℚ) : ℚ := (roundHalfAway (q * 100) : ℚ) / 100

/-- Two-digit decimal rendering of `k` (used for the cents field). -/
def pad2 (k : ℕ) : String := if k < 10 then "0" ++ toString k else toString k

/-- Python `f"{v:.2f}"` on an exact value. -/
def formatFixed2 (q : ℚ) : String :=
  let n := (roundHalfEven (|q| * 100)).toNat
  (if q < 0 then "-" else "") ++ toString (n / 100) ++ "." ++ pad2 (n % 100)

/-- Little-endian decimal digit characters of `n`, with explicit fuel so the
definition is structural. -/
def natDigitsLE : ℕ → ℕ → List Char
  | 0, _ => []
  | fuel + 1, m =>
    if m = 0 then [] else Char.ofNat (m % 10 + 48) :: natDigitsLE fuel (m / 10)

/-- Big-endian decimal digit characters of a natural number. -/
def natDigits (n : ℕ) : List Char :=
  if n = 0 then ['0'] else (natDigitsLE n n).reverse

/-- Insert a `.` after every three characters of a little-endian digit list
(the grouping step of Python `f"{n:,}"` with `.replace(",", ".")`). -/
def chunkRev : List Char → List Char
  | a :: b :: c :: d :: rest => a :: b :: c :: '.' :: chunkRev (d :: rest)
  | l => l

/-- Python `f"{n:,}".replace(",", ".")`: decimal digits of `n` grouped in
threes from the right, separated by dots. -/
def group3 (n : ℕ) : String :=
  String.mk (chunkRev (natDigits n).reverse).reverse

/-- `_fmt_money` from the source: `divmod(abs(v), 1)`, thousands-grouped
integer part, `f"{frac:.2f}"` cut after the dot, `R$ ` prefix and a sign
slot for negative values. -/
def fmt_money (v : ℚ) : String :=
  let ip := (⌊|v|⌋).toNat
  let fr := |v| - ⌊|v|⌋
  let n2 := (roundHalfEven (fr * 100)).toNat
  "R$ " ++ (if v < 0 then "-" else "") ++ group3 ip ++ "," ++ pad2 (n2 % 100)

/-- One output row of the price engine. -/
structure PriceRow where
  tipo : String
  categoria : String
  mult : ℚ
  preco : ℚ
deriving DecidableEq, Repr

/-- The `RULES` table of `MercadoLivrePriceOptimizer.py`, in insertion
order (`Produto Novo` then `Produto Usado`). -/
def RULES : List (String × List (String × ℚ)) :=
  [("Produto Novo",
    [("Preço Competitivo", 95/100),
     ("Preço Muito Competitivo", 87/100),
     ("Preço Extremamente Competitivo", 75/100),
     ("Preço com Pressa Moderada", 62/100),
     ("Preço com Muita Pressa", 49/100),
     ("Preço com Pressa Extrema e Desespero Moderado", 40/100),
     ("Preço com Pressa Extrema e Extremo Desespero", 3333/10000)]),
   ("Produto Usado",
    [("Preço Muito Competitivo", 95/100),
     ("Preço Extremamente competitivo", 85/100),
     ("Preço com Moderada Pressa", 75/100),
     ("Preço com Muita Pressa", 66/100),
     ("Preço com Extrema Pressa e Desespero", 50/100)])]

/-- `compute_rows` from the source: map the rule table over the two base
prices (`base_map` is the two-key dictionary, modelled by the conditional),
rounding each product to 2 decimals. -/
def compute_rows (preco_novo preco_usado : ℚ) : List PriceRow :=
  (RULES.map (fun tr =>
    let base := if tr.1 = "Produto Novo" then preco_novo else preco_usado
    tr.2.map (fun lm => PriceRow.mk tr.1 lm.1 lm.2 (pyRound2 (base * lm.2))))).flatten

/-- Python `f"{s:<{w}}"`: pad on the right with spaces to width `w`. -/
def ljust (s : String) (w : ℕ) : String :=
  s ++ String.mk (List.replicate (w - s.length) ' ')

/-- Python `f"{s:>{w}}"`: pad on the left with spaces to width `w`. -/
def rjust (s : String) (w : ℕ) : String :=
  String.mk (List.replicate (w - s.length) ' ') ++ s

/-- `_format_block` from the source: per-group column widths (max of header
and cell widths), a title line, header line, dash separator of the header's
length, then one line per row. -/
def format_block (grupo : List PriceRow) (titulo : String) : List String :=
  let cat_w := (grupo.map (fun r => r.categoria.length)).foldl max "Categoria".length
  let mult_w := (grupo.map (fun r => (formatFixed2 r.mult).length)).foldl max
    "Multiplicador".length
  let preco_w := (grupo.map (fun r => (fmt_money r.preco).length)).foldl max
    "Preço Otimizado".length
  let header := ljust "Categoria" cat_w ++ "  " ++ rjust "Multiplicador" mult_w
    ++ "  " ++ rjust "Preço Otimizado" preco_w
  let sep := String.mk (List.replicate header.length '-')
  [titulo, header, sep] ++ grupo.map (fun r =>
    ljust r.categoria cat_w ++ "  " ++ rjust (formatFixed2 r.mult) mult_w
      ++ "  " ++ rjust (fmt_money r.preco) preco_w)

/-- `_build_output_lines` from the source: `Produto:` header, blank line,
the `Produto Novo` block, a blank line after it (only when the block is
present), then the `Produto Usado` block. -/
def build_output_lines (rows : List PriceRow) (produto : String) : List String :=
  let g0 := rows.filter (fun r => r.tipo == "Produto Novo")
  let g1 := rows.filter (fun r => r.tipo == "Produto Usado")
  ["Produto: " ++ produto, ""]
    ++ (if g0 = [] then [] else format_block g0 "Produto Novo" ++ [""])
    ++ (if g1 = [] then [] else format_block g1 "Produto Usado")

/-- Console semantics of `print_table`: Python `print(line)` emits the line
followed by a newline, for each line in turn. -/
def printLines : List String → String
  | [] => ""
  | a :: rest => a ++ "\n" ++ printLines rest

/-- Everything `print_table` writes to stdout. -/
def print_table_output (rows : List PriceRow) (produto : String) : String :=
  printLines (build_output_lines rows produto)

/-- Python `"\n".join(lines)`. -/
def pyJoinNL : List String → String
  | [] => ""
  | [a] => a
  | a :: b :: rest => a ++ "\n" ++ pyJoinNL (b :: rest)

/-- The bytes `main` writes to the `.txt` file:
`"\n".join(_build_output_lines(...)) + "\n"`. -/
def txt_content (rows : List PriceRow) (produto : String) : String :=
  pyJoinNL (build_output_lines rows produto) ++ "\n"

/-- The ASCII stage of `_slug_filename`, everything after
`ascii_only = norm.encode("ascii", "ignore").decode("ascii")`: strip, keep
alphanumerics and `-`/`_` while mapping every other character to `_`, then
split on `_`, drop empty pieces and re-join with `_`; fall back to
`produto` when the result is empty. -/
def slugify (ascii_only : List Char) : List Char :=
  let safe := (pyStrip ascii_only).map
    (fun ch => if ch.isAlphanum ∨ ch = '-' ∨ ch = '_' then ch else '_')
  let collapsed := List.intercalate ['_'] ((safe.splitOn '_').filter (fun p => p ≠ []))
  if collapsed = [] then str "produto" else collapsed

/-- `_slug_filename` from the source, parameterized by `fold`, the
characterwise action of
`unicodedata.normalize("NFKD", ·).encode("ascii", "ignore")`.  NFKD
decomposes each character independently and the ASCII-ignore encoding then
drops every non-ASCII code point (in particular all combining marks), so
the stdlib stage is `(name.map fold).flatten` for the Unicode-table-defined
`fold` — a table far too large to embed, but one that provably fixes every
ASCII character.  The slug theorems below are proved for every `fold`, so
they hold in particular for the stdlib one; closed examples instantiate
`fold` with the identity on all-ASCII names, where the stdlib fold is the
identity. -/
def slug_filename (fold : Char → List Char) (name : List Char) : List Char :=
  slugify ((name.map fold).flatten)

/-- Observable outcome of one run of `main`. -/
structure RunResult where
  exitCode : ℕ
  errorMessage : Option String
  txtFile : Option (String × String)
deriving DecidableEq, Repr

/-- The message carried by each `ValueError` (the parse message is raised by
Python's `float`). -/
def errMsg : InputErr → String
  | .formatError =>
    "O arquivo precisa conter 3 linhas: nome do produto, preço novo, preço usado."
  | .parseError l => "could not convert string to float: '" ++ String.mk l ++ "'"
  | .validationError => "Os preços precisam ser positivos."

/-- `main` from the source, restricted to its observable effects: on any
read error it prints `Erro ao ler arquivo de entrada '<path>': <msg>` and
exits with code 1 without writing anything; on success it computes the rows
and writes the `.txt` file named from the slug.  `fold` abstracts the
stdlib NFKD and ASCII-encode stage of the slug, as in `slug_filename`; it
plays no part in the error path. -/
def main_model (fold : Char → List Char) (path : String)
    (fileLines : List (List Char)) : RunResult :=
  match read_input fileLines with
  | .error e =>
    ⟨1, some ("Erro ao ler arquivo de entrada '" ++ path ++ "': " ++ errMsg e), none⟩
  | .ok nt =>
    let rows := compute_rows nt.2.1 nt.2.2
    let produto := String.mk nt.1
    ⟨0, none,
      some ("preco_otimizado_" ++ String.mk (slug_filename fold nt.1) ++ ".txt",
        txt_content rows produto)⟩

/-- Join character groups with a separator (specification-side description
of "dot grouping every 3 digits": the groups joined by `.`). -/
def joinSep (sep : List Char) : List (List Char) → List Char
  | [] => []
  | [p] => p
  | p :: q :: rest => p ++ sep ++ joinSep sep (q :: rest)

/-! ## Helper lemmas -/

theorem mem_dropWhile_of_mem {p : Char → Bool} {c : Char} :
    ∀ {l : List Char}, c ∈ l → p c = false → c ∈ l.dropWhile p := by
  intro l
  induction l with
  | nil => intro h _; exact absurd h (List.not_mem_nil c)
  | cons a t ih =>
    intro hm hc
    rw [List.dropWhile_cons]
    by_cases ha : p a = true
    · simp only [ha, if_true]
      rcases List.mem_cons.mp hm with h | h
      · subst h; rw [hc] at ha; exact absurd ha (by simp)
      · exact ih h hc
    · simp only [ha, if_false]; exact hm

theorem mem_of_mem_dropWhile {p : Char → Bool} {c : Char} :
    ∀ {l : List Char}, c ∈ l.dropWhile p → c ∈ l :=
  fun h => (List.dropWhile_suffix _).subset h

theorem mem_pyStrip_of_mem {c : Char} {s : List Char} (hm : c ∈ s)
    (hc : isPySpace c = false) : c ∈ pyStrip s := by
  unfold pyStrip
  rw [List.mem_reverse]
  exact mem_dropWhile_of_mem (by rw [List.mem_reverse]; exact mem_dropWhile_of_mem hm hc) hc

theorem mem_of_mem_pyStrip {c : Char} {s : List Char} (hm : c ∈ pyStrip s) : c ∈ s := by
  unfold pyStrip at hm
  rw [List.mem_reverse] at hm
  have := mem_of_mem_dropWhile hm
  rw [List.mem_reverse] at this
  exact mem_of_mem_dropWhile this

theorem mem_removeRS_of_mem {c : Char} (hR : c ≠ 'R') (hS : c ≠ '$') :
    ∀ {l : List Char}, c ∈ l → c ∈ removeRS l := by
  intro l
  induction l using removeRS.induct with
  | case1 => intro h; exact absurd h (List.not_mem_nil c)
  | case2 d => intro h; simpa [removeRS] using h
  | case3 a b rest hab ih =>
    intro h
    rw [removeRS, if_pos hab]
    rcases List.mem_cons.mp h with h1 | h1
    · exact absurd (h1.trans hab.1) hR
    · rcases List.mem_cons.mp h1 with h2 | h2
      · exact absurd (h2.trans hab.2) hS
      · exact ih h2
  | case4 a b rest hab ih =>
    intro h
    rw [removeRS, if_neg hab]
    rcases List.mem_cons.mp h with h1 | h1
    · exact h1 ▸ List.mem_cons_self a _
    · exact List.mem_cons_of_mem a (ih h1)

theorem mem_of_mem_removeRS {c : Char} :
    ∀ {l : List Char}, c ∈ removeRS l → c ∈ l := by
  intro l
  induction l using removeRS.induct with
  | case1 => intro h; simpa [removeRS] using h
  | case2 d => intro h; simpa [removeRS] using h
  | case3 a b rest hab ih =>
    intro h
    rw [removeRS, if_pos hab] at h
    exact List.mem_cons_of_mem a (List.mem_cons_of_mem b (ih h))
  | case4 a b rest hab ih =>
    intro h
    rw [removeRS, if_neg hab] at h
    rcases List.mem_cons.mp h with h1 | h1
    · exact h1 ▸ List.mem_cons_self a _
    · exact List.mem_cons_of_mem a (ih h1)

theorem mem_cleanPrice_iff {c : Char} {s : List Char} (hsp : isPySpace c = false)
    (hspace : c ≠ ' ') (hR : c ≠ 'R') (hS : c ≠ '$') :
    c ∈ cleanPrice s ↔ c ∈ s := by
  constructor
  · intro h
    unfold cleanPrice at h
    exact mem_of_mem_pyStrip (mem_of_mem_removeRS (List.mem_of_mem_filter h))
  · intro h
    unfold cleanPrice
    refine List.mem_filter.mpr ⟨mem_removeRS_of_mem hR hS (mem_pyStrip_of_mem h hsp), ?_⟩
    simpa using hspace

/-! ## Claim theorems -/

/-- Claim C1: for positive inputs, `compute_rows` returns exactly 12 rows,
7 `Produto Novo` rows followed by 5 `Produto Usado` rows in the fixed table
order, and each row's optimized price is `round(base * multiplier, 2)` with
the base chosen by condition. -/
theorem claim1_compute_rows_shape (pn pu : ℚ) (hn : 0 < pn) (hu : 0 < pu) :
    (compute_rows pn pu).length = 12 ∧
    ((compute_rows pn pu).take 7).map PriceRow.tipo = List.replicate 7 "Produto Novo" ∧
    ((compute_rows pn pu).drop 7).map PriceRow.tipo = List.replicate 5 "Produto Usado" ∧
    (compute_rows pn pu).map PriceRow.mult =
      [95/100, 87/100, 75/100, 62/100, 49/100, 40/100, 3333/10000,
       95/100, 85/100, 75/100, 66/100, 50/100] ∧
    (compute_rows pn pu).map PriceRow.categoria =
      ["Preço Competitivo", "Preço Muito Competitivo", "Preço Extremamente Competitivo",
       "Preço com Pressa Moderada", "Preço com Muita Pressa",
       "Preço com Pressa Extrema e Desespero Moderado",
       "Preço com Pressa Extrema e Extremo Desespero",
       "Preço Muito Competitivo", "Preço Extremamente competitivo",
       "Preço com Moderada Pressa", "Preço com Muita Pressa",
       "Preço com Extrema Pressa e Desespero"] ∧
    ∀ r ∈ compute_rows pn pu,
      r.preco = pyRound2 ((if r.tipo = "Produto Novo" then pn else pu) * r.mult) := by
  refine ⟨?_, ?_, ?_, ?_, ?_, ?_⟩
  · simp [compute_rows, RULES]
  · simp [compute_rows, RULES]
  · simp [compute_rows, RULES]
  · simp [compute_rows, RULES]
  · simp [compute_rows, RULES]
  · intro r hr
    simp [compute_rows, RULES] at hr
    rcases hr with h | h | h | h | h | h | h | h | h | h | h | h <;> subst h <;> simp

/-- Witness for C1 at the concrete input `(2, 3)`. -/
theorem claim1_compute_rows_shape_witness : (compute_rows 2 3).length = 12 :=
  (claim1_compute_rows_shape 2 3 (by norm_num) (by norm_num)).1

/-- Claim C2 counterexample: at `newPrice = 1`, `usedPrice = 1/4` the last
row (tier `0.50` of `Produto Usado`) has `base * multiplier = 0.125`, an
exact binary value even for doubles; the code rounds it to `0.12`
(ties-to-even) while the claimed round-half-away-from-zero gives `0.13`. -/
theorem claim2_counterexample :
    (compute_rows 1 (1/4))[11]? =
      some ⟨"Produto Usado", "Preço com Extrema Pressa e Desespero", 1/2, 3/25⟩ ∧
    specRound2Away ((1/4) * (1/2)) = 13/100 ∧ (3/25 : ℚ) ≠ 13/100 := by
  refine ⟨?_, ?_, by norm_num⟩
  · simp [compute_rows, RULES, pyRound2, roundHalfEven]
    norm_num [Int.fract]
  · norm_num [specRound2Away, roundHalfAway, Int.fract]

/-- Claim C2 as amended: each row's optimized price is `base * multiplier`
rounded to 2 decimals with ties-to-even (Python `round`); away from exact
`.xx5` boundaries this agrees with round-half-away-from-zero, but at exact
boundaries it rounds to the even cent, e.g. `0.125 ↦ 0.12`. -/
theorem claim2_rounding_half_even (pn pu : ℚ) (hn : 0 < pn) (hu : 0 < pu) :
    (∀ r ∈ compute_rows pn pu,
        r.preco = pyRound2 ((if r.tipo = "Produto Novo" then pn else pu) * r.mult)) ∧
    (∀ q : ℚ, q * 100 - (⌊q * 100⌋ : ℚ) ≠ 1/2 → pyRound2 q = specRound2Away q) ∧
    pyRound2 ((1/4) * (1/2)) = 3/25 := by
  refine ⟨?_, ?_, by norm_num [pyRound2, roundHalfEven, Int.fract]⟩
  · intro r hr
    simp [compute_rows, RULES] at hr
    rcases hr with h | h | h | h | h | h | h | h | h | h | h | h <;> subst h <;> simp
  · intro q hq
    unfold pyRound2 specRound2Away roundHalfEven roundHalfAway
    dsimp only
    by_cases h1 : q * 100 - (⌊q * 100⌋ : ℚ) < 1/2
    · rw [if_pos h1, if_pos h1]
    · by_cases h2 : (1:ℚ)/2 < q * 100 - (⌊q * 100⌋ : ℚ)
      · rw [if_neg h1, if_neg h1, if_pos h2, if_pos h2]
      · exact absurd (le_antisymm (not_lt.mp h2) (not_lt.mp h1)) hq

/-- Witness for C2's amended theorem at `(1, 1/4)`. -/
theorem claim2_rounding_half_even_witness : pyRound2 ((1/4) * (1/2)) = 3/25 :=
  (claim2_rounding_half_even 1 (1/4) (by norm_num) (by norm_num)).2.2

/-- Claim C3: separator disambiguation in `_parse_price` — with both `,` and
`.` present the dots are removed as thousands separators and the comma
becomes the decimal point; with only `,` present the comma becomes the
decimal point; and the three specified examples parse to `1234.56`,
`1234.56` and `10.5`. -/
theorem claim3_parse_separators :
    (∀ s : List Char, ',' ∈ s → '.' ∈ s →
        parse_price s = pyFloat (((cleanPrice s).filter (fun c => c ≠ '.')).map commaToDot)) ∧
    (∀ s : List Char, ',' ∈ s → '.' ∉ s →
        parse_price s = pyFloat ((cleanPrice s).map commaToDot)) ∧
    parse_price (str "1.234,56") = some (123456/100) ∧
    parse_price (str "1234.56") = some (123456/100) ∧
    parse_price (str "10,5") = some (105/10) := by
  refine ⟨?_, ?_, ?_, ?_, ?_⟩
  case refine_3 =>
    have h0 : cleanPrice (str "1.234,56") = str "1.234,56" := by decide
    have h1 : pyStrip (str "1234.56") = str "1234.56" := by decide
    simp only [parse_price, h0]
    rw [if_pos (by decide)]
    rw [show ((str "1.234,56").filter (fun c => c ≠ '.')).map commaToDot = str "1234.56"
      from by decide]
    simp only [pyFloat, h1]
    simp +decide [str, digitsToNat]
    norm_num
  case refine_4 =>
    have h0 : cleanPrice (str "1234.56") = str "1234.56" := by decide
    have h1 : pyStrip (str "1234.56") = str "1234.56" := by decide
    simp only [parse_price, h0]
    rw [if_neg (by decide), if_neg (by decide)]
    simp only [pyFloat, h1]
    simp +decide [str, digitsToNat]
    norm_num
  case refine_5 =>
    have h0 : cleanPrice (str "10,5") = str "10,5" := by decide
    have h1 : pyStrip (str "10.5") = str "10.5" := by decide
    simp only [parse_price, h0]
    rw [if_neg (by decide), if_pos (by decide)]
    rw [show (str "10,5").map commaToDot = str "10.5" from by decide]
    simp only [pyFloat, h1]
    simp +decide [str, digitsToNat]
    norm_num
  · intro s hc hd
    have hc' : ',' ∈ cleanPrice s :=
      (mem_cleanPrice_iff (by decide) (by decide) (by decide) (by decide)).mpr hc
    have hd' : '.' ∈ cleanPrice s :=
      (mem_cleanPrice_iff (by decide) (by decide) (by decide) (by decide)).mpr hd
    simp [parse_price, hc', hd']
  · intro s hc hd
    have hc' : ',' ∈ cleanPrice s :=
      (mem_cleanPrice_iff (by decide) (by decide) (by decide) (by decide)).mpr hc
    have hd' : '.' ∉ cleanPrice s := fun h =>
      hd ((mem_cleanPrice_iff (by decide) (by decide) (by decide) (by decide)).mp h)
    simp [parse_price, hc', hd']

/-- Witness for C3 at the concrete string `1.234,56`. -/
theorem claim3_parse_separators_witness :
    parse_price (str "1.234,56") =
      pyFloat (((cleanPrice (str "1.234,56")).filter (fun c => c ≠ '.')).map commaToDot) :=
  claim3_parse_separators.1 (str "1.234,56") (by decide) (by decide)

theorem joinSep_append_single (sep : List Char) :
    ∀ (parts : List (List Char)) (q : List Char), parts ≠ [] →
      joinSep sep (parts ++ [q]) = joinSep sep parts ++ sep ++ q := by
  intro parts
  induction parts with
  | nil => intro q h; exact absurd rfl h
  | cons p t ih =>
    intro q _
    cases t with
    | nil => simp [joinSep]
    | cons r u =>
      show p ++ sep ++ joinSep sep ((r :: u) ++ [q])
          = (p ++ sep ++ joinSep sep (r :: u)) ++ sep ++ q
      rw [ih q (by simp)]
      simp [List.append_assoc]

theorem isDigit_of_lt10 : ∀ d, d < 10 → (Char.ofNat (d + 48)).isDigit = true := by
  decide

theorem natDigitsLE_digits :
    ∀ fuel m : ℕ, ∀ c ∈ natDigitsLE fuel m, c.isDigit = true := by
  intro fuel
  induction fuel with
  | zero => intro m c hc; simp [natDigitsLE] at hc
  | succ f ih =>
    intro m c hc
    rw [natDigitsLE] at hc
    by_cases hm : m = 0
    · simp [hm] at hc
    · rw [if_neg hm] at hc
      rcases List.mem_cons.mp hc with h | h
      · exact h ▸ isDigit_of_lt10 (m % 10) (Nat.mod_lt _ (by norm_num))
      · exact ih _ c h

theorem natDigits_digits (n : ℕ) : ∀ c ∈ natDigits n, c.isDigit = true := by
  unfold natDigits
  by_cases h : n = 0
  · simp [h]
  · intro c hc
    simp only [h, if_false] at hc
    exact natDigitsLE_digits n n c (List.mem_reverse.mp hc)

theorem natDigits_ne_nil (n : ℕ) : natDigits n ≠ [] := by
  unfold natDigits
  by_cases h : n = 0
  · simp [h]
  · simp only [h, if_false, ne_eq, List.reverse_eq_nil_iff]
    obtain ⟨f, rfl⟩ := Nat.exists_eq_succ_of_ne_zero h
    rw [natDigitsLE, if_neg h]
    simp

theorem pad2_spec : ∀ k, k < 100 →
    (pad2 k).length = 2 ∧ ∀ c ∈ (pad2 k).data, c.isDigit = true := by decide

theorem chunkRev_parts :
    ∀ l : List Char, l ≠ [] → (∀ c ∈ l, c.isDigit = true) →
      ∃ parts : List (List Char),
        (chunkRev l).reverse = joinSep (str ".") parts ∧ parts ≠ [] ∧
        (∀ p ∈ parts, p ≠ [] ∧ ∀ c ∈ p, c.isDigit = true) ∧
        parts.headI.length ≤ 3 ∧ ∀ p ∈ parts.tail, p.length = 3 := by
  intro l
  induction l using chunkRev.induct with
  | case1 a b c d rest ih =>
    intro _ hdig
    obtain ⟨parts, h1, h2, h3, h4, h5⟩ := ih (by simp)
      (fun x hx => hdig x (by simp [List.mem_cons] at hx ⊢; tauto))
    obtain ⟨p0, pt, rfl⟩ : ∃ p0 pt, parts = p0 :: pt := by
      cases parts with
      | nil => exact absurd rfl h2
      | cons p0 pt => exact ⟨p0, pt, rfl⟩
    refine ⟨(p0 :: pt) ++ [[c, b, a]], ?_, by simp, ?_, ?_, ?_⟩
    · rw [show chunkRev (a :: b :: c :: d :: rest)
          = a :: b :: c :: '.' :: chunkRev (d :: rest) from rfl]
      rw [joinSep_append_single _ _ _ h2, ← h1]
      simp [str, List.append_assoc]
    · intro p hp
      rcases List.mem_append.mp hp with h | h
      · exact h3 p h
      · rw [List.mem_singleton.mp h]
        refine ⟨by simp, ?_⟩
        intro x hx
        rcases List.mem_cons.mp hx with h' | h'
        · exact h' ▸ hdig c (by simp)
        rcases List.mem_cons.mp h' with h'' | h''
        · exact h'' ▸ hdig b (by simp)
        · rw [List.mem_singleton.mp h'']; exact hdig a (by simp)
    · simpa using h4
    · intro p hp
      simp only [List.cons_append, List.tail_cons] at hp
      rcases List.mem_append.mp hp with h | h
      · exact h5 p h
      · rw [List.mem_singleton.mp h]; rfl
  | case2 l hno =>
    intro hl hdig
    rcases l with _ | ⟨a, _ | ⟨b, _ | ⟨c, _ | ⟨d, t⟩⟩⟩⟩
    · exact absurd rfl hl
    · refine ⟨[[a]], rfl, by simp, ?_, by simp, by simp⟩
      intro p hp
      rw [List.mem_singleton.mp hp]
      exact ⟨by simp,
        fun x hx => by rw [List.mem_singleton.mp hx]; exact hdig a (by simp)⟩
    · refine ⟨[[b, a]], rfl, by simp, ?_, by simp, by simp⟩
      intro p hp
      rw [List.mem_singleton.mp hp]
      refine ⟨by simp, ?_⟩
      intro x hx
      rcases List.mem_cons.mp hx with h | h
      · exact h ▸ hdig b (by simp)
      · rw [List.mem_singleton.mp h]; exact hdig a (by simp)
    · refine ⟨[[c, b, a]], rfl, by simp, ?_, by simp, by simp⟩
      intro p hp
      rw [List.mem_singleton.mp hp]
      refine ⟨by simp, ?_⟩
      intro x hx
      rcases List.mem_cons.mp hx with h | h
      · exact h ▸ hdig c (by simp)
      rcases List.mem_cons.mp h with h' | h'
      · exact h' ▸ hdig b (by simp)
      · rw [List.mem_singleton.mp h']; exact hdig a (by simp)
    · exact (hno a b c d t rfl).elim

theorem fmt_money_eval (v : ℚ) (ip n2 : ℕ) (hv : 0 ≤ v)
    (hip : ⌊v⌋ = (ip : ℤ)) (hn2 : roundHalfEven ((v - (ip : ℚ)) * 100) = (n2 : ℤ)) :
    fmt_money v = "R$ " ++ group3 ip ++ "," ++ pad2 (n2 % 100) := by
  unfold fmt_money
  dsimp only
  rw [abs_of_nonneg hv, hip, if_neg (not_lt.mpr hv)]
  push_cast
  rw [hn2]
  simp

theorem fmt_money_eval_neg (v : ℚ) (ip n2 : ℕ) (hv : v < 0)
    (hip : ⌊-v⌋ = (ip : ℤ)) (hn2 : roundHalfEven ((-v - (ip : ℚ)) * 100) = (n2 : ℤ)) :
    fmt_money v = "R$ " ++ "-" ++ group3 ip ++ "," ++ pad2 (n2 % 100) := by
  unfold fmt_money
  dsimp only
  rw [abs_of_neg hv, hip, if_pos hv]
  push_cast
  rw [hn2]
  simp

/-- Claim C5: the currency formatter always produces the `R$ ` prefix, a
sign slot that is `-` exactly for negative values, an integer part grouped
in dot-separated digit groups (first group at most 3 digits, all later
groups exactly 3), a comma, and exactly two decimal digits; and the three
format examples hold, including the negative one. -/
theorem claim5_fmt_money_format :
    (∀ v : ℚ, ∃ parts : List (List Char), ∃ cents : String,
        fmt_money v = "R$ " ++ (if v < 0 then "-" else "")
            ++ String.mk (joinSep (str ".") parts) ++ "," ++ cents ∧
        parts ≠ [] ∧ (∀ p ∈ parts, p ≠ [] ∧ ∀ c ∈ p, c.isDigit = true) ∧
        parts.headI.length ≤ 3 ∧ (∀ p ∈ parts.tail, p.length = 3) ∧
        cents.length = 2 ∧ (∀ c ∈ cents.data, c.isDigit = true)) ∧
    fmt_money (2469/2) = "R$ 1.234,50" ∧
    fmt_money (2/5) = "R$ 0,40" ∧
    fmt_money (-(2469/2)) = "R$ -1.234,50" := by
  refine ⟨?_, ?_, ?_, ?_⟩
  · intro v
    obtain ⟨parts, hjoin, hne, hdig, hhead, htail⟩ :=
      chunkRev_parts ((natDigits (⌊|v|⌋).toNat).reverse)
        (by simp [natDigits_ne_nil])
        (fun c hc => natDigits_digits _ c (List.mem_reverse.mp hc))
    refine ⟨parts, pad2 ((roundHalfEven ((|v| - ⌊|v|⌋) * 100)).toNat % 100),
      ?_, hne, hdig, hhead, htail,
      (pad2_spec _ (Nat.mod_lt _ (by norm_num))).1,
      (pad2_spec _ (Nat.mod_lt _ (by norm_num))).2⟩
    unfold fmt_money group3
    dsimp only
    rw [hjoin]
  · rw [fmt_money_eval (2469/2) 1234 50 (by norm_num) (by norm_num)
      (by norm_num [roundHalfEven])]
    decide
  · rw [fmt_money_eval (2/5) 0 40 (by norm_num) (by norm_num)
      (by norm_num [roundHalfEven])]
    decide
  · rw [fmt_money_eval_neg (-(2469/2)) 1234 50 (by norm_num) (by norm_num)
      (by norm_num [roundHalfEven])]
    decide

theorem printLines_eq_joinNL :
    ∀ l : List String, l ≠ [] → printLines l = pyJoinNL l ++ "\n" := by
  intro l
  induction l with
  | nil => intro h; exact absurd rfl h
  | cons a t ih =>
    intro _
    cases t with
    | nil => simp [printLines, pyJoinNL]
    | cons b u =>
      show a ++ "\n" ++ printLines (b :: u) = (a ++ "\n" ++ pyJoinNL (b :: u)) ++ "\n"
      rw [ih (by simp)]
      simp [String.append_assoc]

/-- Claim C7: for every run, the bytes written to the `.txt` file equal the
bytes `print_table` sends to the console, and the common line list is the
`Produto:` header followed by the New block and then the Used block. -/
theorem claim7_txt_equals_console (pn pu : ℚ) (produto : String) :
    print_table_output (compute_rows pn pu) produto
      = txt_content (compute_rows pn pu) produto ∧
    build_output_lines (compute_rows pn pu) produto
      = ["Produto: " ++ produto, ""]
        ++ format_block
          ((compute_rows pn pu).filter (fun r => r.tipo == "Produto Novo")) "Produto Novo"
        ++ [""]
        ++ format_block
          ((compute_rows pn pu).filter (fun r => r.tipo == "Produto Usado")) "Produto Usado" := by
  have hg0 : (compute_rows pn pu).filter (fun r => r.tipo == "Produto Novo") ≠ [] := by
    simp [compute_rows, RULES]
  have hg1 : (compute_rows pn pu).filter (fun r => r.tipo == "Produto Usado") ≠ [] := by
    simp [compute_rows, RULES]
  have hshape : build_output_lines (compute_rows pn pu) produto
      = ["Produto: " ++ produto, ""]
        ++ format_block
          ((compute_rows pn pu).filter (fun r => r.tipo == "Produto Novo")) "Produto Novo"
        ++ [""]
        ++ format_block
          ((compute_rows pn pu).filter (fun r => r.tipo == "Produto Usado")) "Produto Usado" := by
    unfold build_output_lines
    dsimp only
    rw [if_neg hg0, if_neg hg1]
    simp [List.append_assoc]
  refine ⟨?_, hshape⟩
  unfold print_table_output txt_content
  exact printLines_eq_joinNL _ (by rw [hshape]; simp)

/-- Evaluation of `_read_input` on the spec's end-to-end example file. -/
theorem read_input_widget :
    read_input [str "Widget X", str "1000,00", str "500,00"]
      = .ok (str "Widget X", 1000, 500) := by
  have hp1 : parse_price (str "1000,00") = some 1000 := by
    have h0 : cleanPrice (str "1000,00") = str "1000,00" := by decide
    have h1 : pyStrip (str "1000.00") = str "1000.00" := by decide
    simp only [parse_price, h0]
    rw [if_neg (by decide), if_pos (by decide)]
    rw [show (str "1000,00").map commaToDot = str "1000.00" from by decide]
    simp only [pyFloat, h1]
    simp +decide [str, digitsToNat]
  have hp2 : parse_price (str "500,00") = some 500 := by
    have h0 : cleanPrice (str "500,00") = str "500,00" := by decide
    have h1 : pyStrip (str "500.00") = str "500.00" := by decide
    simp only [parse_price, h0]
    rw [if_neg (by decide), if_pos (by decide)]
    rw [show (str "500,00").map commaToDot = str "500.00" from by decide]
    simp only [pyFloat, h1]
    simp +decide [str, digitsToNat]
  unfold read_input
  rw [show ([str "Widget X", str "1000,00", str "500,00"].map pyStrip).filter
      (fun l => l ≠ []) = [str "Widget X", str "1000,00", str "500,00"] from by decide]
  dsimp only
  rw [hp1, hp2]
  dsimp only
  rw [if_neg (by norm_num)]

/-- Claim C6 counterexample: on the example file the first New row's label
is the Portuguese string `Preço Competitivo`, not `Competitive` as the
claim states (the spec's tier names are translations, not the program's
labels). -/
theorem claim6_counterexample :
    read_input [str "Widget X", str "1000,00", str "500,00"]
      = .ok (str "Widget X", 1000, 500) ∧
    ((compute_rows 1000 500).map PriceRow.categoria)[0]? = some "Preço Competitivo" ∧
    "Preço Competitivo" ≠ "Competitive" := by
  refine ⟨read_input_widget, ?_, by decide⟩
  simp [compute_rows, RULES]

/-- Claim C6 as amended: on the example file the first New row has label
`Preço Competitivo` and formatted price `R$ 950,00`, and the first Used row
has label `Preço Muito Competitivo` and formatted price `R$ 475,00`. -/
theorem claim6_end_to_end :
    read_input [str "Widget X", str "1000,00", str "500,00"]
      = .ok (str "Widget X", 1000, 500) ∧
    (compute_rows 1000 500)[0]? =
      some ⟨"Produto Novo", "Preço Competitivo", 95/100, 950⟩ ∧
    (compute_rows 1000 500)[7]? =
      some ⟨"Produto Usado", "Preço Muito Competitivo", 95/100, 475⟩ ∧
    fmt_money 950 = "R$ 950,00" ∧
    fmt_money 475 = "R$ 475,00" := by
  refine ⟨read_input_widget, ?_, ?_, ?_, ?_⟩
  · simp [compute_rows, RULES, pyRound2, roundHalfEven]
    norm_num [Int.fract]
  · simp [compute_rows, RULES, pyRound2, roundHalfEven]
    norm_num [Int.fract]
  · rw [fmt_money_eval 950 950 0 (by norm_num) (by norm_num) (by norm_num [roundHalfEven])]
    decide
  · rw [fmt_money_eval 475 475 0 (by norm_num) (by norm_num) (by norm_num [roundHalfEven])]
    decide

/-- Claim C4 counterexample: the file `["X", "abc", "1"]` has exactly 3
non-empty lines and a positive parsable third line, yet the program errors:
`float("abc")` raises a `ValueError` that is neither of the claim's two
kinds (it is not the fewer-than-3-lines error and not the non-positive
price error). -/
theorem claim4_counterexample :
    ((([str "X", str "abc", str "1"]).map pyStrip).filter (fun l => l ≠ [])).length = 3 ∧
    read_input [str "X", str "abc", str "1"] = .error (.parseError (str "abc")) ∧
    InputErr.parseError (str "abc") ≠ .formatError ∧
    InputErr.parseError (str "abc") ≠ .validationError ∧
    main_model (fun c => [c]) "product.txt" [str "X", str "abc", str "1"] =
      ⟨1, some ("Erro ao ler arquivo de entrada 'product.txt': "
        ++ "could not convert string to float: 'abc'"), none⟩ := by
  refine ⟨by decide, by rfl, by decide, by decide, by rfl⟩

/-- Claim C4 as amended: the reader has three failure modes, not two — a
format error when fewer than 3 non-empty trimmed lines remain, a parse
error when a price line is not numeric, and a validation error when a
parsed price is ≤ 0; every failure makes the top level print a message
containing the offending path, exit with code 1 and write no output file,
regardless of the slug's ASCII fold, which the error path never reaches. -/
theorem claim4_error_handling (fold : Char → List Char) (path : String)
    (lines : List (List Char)) :
    (((lines.map pyStrip).filter (fun l => l ≠ [])).length < 3 →
        read_input lines = .error .formatError) ∧
    (∀ name l1 l2 rest p1 p2,
        (lines.map pyStrip).filter (fun l => l ≠ []) = name :: l1 :: l2 :: rest →
        parse_price l1 = some p1 → parse_price l2 = some p2 → (p1 ≤ 0 ∨ p2 ≤ 0) →
        read_input lines = .error .validationError) ∧
    (∀ e, read_input lines = .error e →
        main_model fold path lines =
          ⟨1, some ("Erro ao ler arquivo de entrada '" ++ path ++ "': " ++ errMsg e),
            none⟩) := by
  refine ⟨?_, ?_, ?_⟩
  · intro h
    unfold read_input
    cases hC : (lines.map pyStrip).filter (fun l => l ≠ []) with
    | nil => rfl
    | cons a t =>
      cases t with
      | nil => rfl
      | cons b u =>
        cases u with
        | nil => rfl
        | cons c w =>
          rw [hC] at h
          simp at h
          omega
  · intro name l1 l2 rest p1 p2 hC hp1 hp2 hle
    unfold read_input
    rw [hC]
    dsimp only
    rw [hp1, hp2]
    dsimp only
    rw [if_pos hle]
  · intro e he
    unfold main_model
    rw [he]

/-- Witness for C4's amended theorem: the empty file triggers the format
error and the exit-1, no-output behaviour. -/
theorem claim4_error_handling_witness :
    read_input ([] : List (List Char)) = .error .formatError ∧
    main_model (fun c => [c]) "product" [] =
      ⟨1, some ("Erro ao ler arquivo de entrada 'product': " ++ errMsg .formatError),
        none⟩ := by
  have h := claim4_error_handling (fun c => [c]) "product" []
  exact ⟨h.1 (by decide), h.2.2 .formatError (h.1 (by decide))⟩

/-- Claim C8 counterexample: a file with 4 non-empty trimmed lines on which
the reader does not succeed (the second line is not a parsable price). -/
theorem claim8_counterexample :
    ((([str "X", str "abc", str "1,0", str "2,0"]).map pyStrip).filter
      (fun l => l ≠ [])).length = 4 ∧
    read_input [str "X", str "abc", str "1,0", str "2,0"]
      = .error (.parseError (str "abc")) := by
  refine ⟨by decide, by rfl⟩

/-- Claim C8 as amended: whenever the first three non-empty trimmed lines
are a name and two parsable positive prices, the reader succeeds with
exactly those three lines regardless of the remaining lines, and blank
lines anywhere in the file are ignored. -/
theorem claim8_first_three_lines (lines : List (List Char)) :
    (∀ name l1 l2 rest p1 p2,
        (lines.map pyStrip).filter (fun l => l ≠ []) = name :: l1 :: l2 :: rest →
        parse_price l1 = some p1 → parse_price l2 = some p2 → 0 < p1 → 0 < p2 →
        read_input lines = .ok (name, p1, p2)) ∧
    read_input lines = read_input (lines.filter (fun l => pyStrip l ≠ [])) := by
  constructor
  · intro name l1 l2 rest p1 p2 hC hp1 hp2 hpos1 hpos2
    unfold read_input
    rw [hC]
    dsimp only
    rw [hp1, hp2]
    dsimp only
    rw [if_neg (by push_neg; exact ⟨hpos1, hpos2⟩)]
  · have hfilter : ∀ ls : List (List Char),
        ((ls.filter (fun l => pyStrip l ≠ [])).map pyStrip).filter (fun l => l ≠ [])
          = (ls.map pyStrip).filter (fun l => l ≠ []) := by
      intro ls
      induction ls with
      | nil => rfl
      | cons a t ih =>
        by_cases h : pyStrip a = []
        · simp [List.filter_cons, List.map_cons, h]
          simpa using ih
        · simp [List.filter_cons, List.map_cons, h]
          simpa using ih
    unfold read_input
    rw [hfilter]

/-- Witness for C8's amended theorem: a file with a blank line and a
trailing extra line still reads its first three non-empty lines. -/
theorem claim8_first_three_lines_witness :
    read_input [str "", str "Widget", str "10", str "2", str "extra"]
      = .ok (str "Widget", 10, 2) := by
  have h := (claim8_first_three_lines
    [str "", str "Widget", str "10", str "2", str "extra"]).1
  refine h (str "Widget") (str "10") (str "2") [str "extra"] 10 2 (by decide) ?_ ?_
    (by norm_num) (by norm_num)
  · have h1 : cleanPrice (str "10") = str "10" := by decide
    have h2 : pyStrip (str "10") = str "10" := by decide
    simp only [parse_price, h1]
    rw [if_neg (by decide), if_neg (by decide)]
    simp only [pyFloat, h2]
    simp +decide [str, digitsToNat]
  · have h1 : cleanPrice (str "2") = str "2" := by decide
    have h2 : pyStrip (str "2") = str "2" := by decide
    simp only [parse_price, h1]
    rw [if_neg (by decide), if_neg (by decide)]
    simp only [pyFloat, h2]
    simp +decide [str, digitsToNat]

theorem strip_parts {s : List Char} (h : pyStrip s = s) :
    s.dropWhile isPySpace = s ∧ s.reverse.dropWhile isPySpace = s.reverse := by
  have h1 : (s.dropWhile isPySpace).length ≤ s.length :=
    ((List.dropWhile_suffix _).sublist).length_le
  have h2 : ((s.dropWhile isPySpace).reverse.dropWhile isPySpace).length
      ≤ (s.dropWhile isPySpace).length := by
    have := ((List.dropWhile_suffix
      (l := (s.dropWhile isPySpace).reverse) isPySpace).sublist).length_le
    simpa using this
  have h3 : (pyStrip s).length
      = ((s.dropWhile isPySpace).reverse.dropWhile isPySpace).length := by
    simp [pyStrip]
  have hlen : (pyStrip s).length = s.length := by rw [h]
  have htlen : (s.dropWhile isPySpace).length = s.length := by omega
  have hts : s.dropWhile isPySpace = s :=
    (List.IsSuffix.sublist (List.dropWhile_suffix _)).eq_of_length htlen
  refine ⟨hts, ?_⟩
  have h4 := h
  rw [pyStrip, hts] at h4
  have h5 := congrArg List.reverse h4
  simpa using h5

theorem head_not_space {s : List Char} (h : s.dropWhile isPySpace = s) :
    ∀ c t, s = c :: t → isPySpace c = false := by
  intro c t hs
  subst hs
  by_contra hc
  rw [Bool.not_eq_false] at hc
  rw [List.dropWhile_cons, if_pos hc] at h
  have hlen := congrArg List.length h
  have hle : (t.dropWhile isPySpace).length ≤ t.length :=
    ((List.dropWhile_suffix _).sublist).length_le
  simp at hlen
  omega

theorem dropWhile_cons_of_neg {p : Char → Bool} {c : Char} (l : List Char)
    (hc : p c = false) : List.dropWhile p (c :: l) = c :: l := by
  rw [List.dropWhile_cons, hc]
  simp

theorem pyStrip_rs_prepend {s : List Char} (h : pyStrip s = s) (hne : s ≠ []) :
    pyStrip (str "R$ " ++ s) = str "R$ " ++ s := by
  obtain ⟨hA, hB⟩ := strip_parts h
  obtain ⟨d, r, hrev⟩ : ∃ d r, s.reverse = d :: r := by
    cases hsr : s.reverse with
    | nil => exact absurd (by simpa using congrArg List.reverse hsr) hne
    | cons d r => exact ⟨d, r, rfl⟩
  have hd : isPySpace d = false := head_not_space hB d r hrev
  unfold pyStrip
  rw [show str "R$ " ++ s = 'R' :: '$' :: ' ' :: s from rfl]
  rw [dropWhile_cons_of_neg _ (by decide)]
  rw [show ('R' :: '$' :: ' ' :: s).reverse = s.reverse ++ [' ', '$', 'R'] from by simp]
  rw [hrev, List.cons_append, dropWhile_cons_of_neg _ hd, ← List.cons_append, ← hrev]
  simp

theorem removeRS_space_cons (u : List Char) :
    removeRS (' ' :: u) = ' ' :: removeRS u := by
  cases u with
  | nil => rfl
  | cons c t =>
    rw [removeRS]
    simp

theorem cleanPrice_rs_prepend {s : List Char} (h : pyStrip s = s) (hne : s ≠ []) :
    cleanPrice (str "R$ " ++ s) = cleanPrice s := by
  unfold cleanPrice
  rw [pyStrip_rs_prepend h hne, h]
  rw [show str "R$ " ++ s = 'R' :: '$' :: ' ' :: s from rfl]
  have h2 : removeRS ('R' :: '$' :: ' ' :: s) = removeRS (' ' :: s) := by
    rw [removeRS]
    simp
  rw [h2, removeRS_space_cons]
  simp [List.filter_cons]

/-- Claim C9: every occurrence of `R$` and every space character is removed
before numeric parsing, so prefixing a price with `R$ ` never changes the
parse result; in particular `R$ 1.234,56` parses like `1.234,56`, and an
input with several `R$` occurrences and interior spaces still parses. -/
theorem claim9_parse_ignores_currency :
    (∀ s : List Char, pyStrip s = s →
        parse_price (str "R$ " ++ s) = parse_price s) ∧
    parse_price (str "R$ 1.234,56") = parse_price (str "1.234,56") ∧
    parse_price (str " R$R$1 0,5 ") = some (105/10) := by
  refine ⟨?_, ?_, ?_⟩
  · intro s h
    cases s with
    | nil => decide
    | cons c t =>
      unfold parse_price
      rw [cleanPrice_rs_prepend h (by simp)]
  · have h0 : cleanPrice (str "R$ 1.234,56") = cleanPrice (str "1.234,56") := by decide
    unfold parse_price
    rw [h0]
  · have h0 : cleanPrice (str " R$R$1 0,5 ") = str "10,5" := by decide
    have h1 : pyStrip (str "10.5") = str "10.5" := by decide
    simp only [parse_price, h0]
    rw [if_neg (by decide), if_pos (by decide)]
    rw [show (str "10,5").map commaToDot = str "10.5" from by decide]
    simp only [pyFloat, h1]
    simp +decide [str, digitsToNat]
    norm_num

/-- Witness for C9 at the concrete string `1.234,56`. -/
theorem claim9_parse_ignores_currency_witness :
    parse_price (str "R$ " ++ str "1.234,56") = parse_price (str "1.234,56") :=
  claim9_parse_ignores_currency.1 (str "1.234,56") (by decide)

/-- Claim C10 counterexample: the name `-` contains no alphanumeric
character, yet its slug is `-`, not the `produto` fallback (hyphens are
kept by the slug function, so a symbols-only name made of hyphens never
collapses to empty).  The name is all-ASCII, where the stdlib NFKD and
ASCII-ignore fold is the identity used to instantiate `fold` here, so this
is exactly the program's slug of `-`. -/
theorem claim10_counterexample :
    slug_filename (fun c => [c]) (str "-") = str "-" ∧ str "-" ≠ str "produto" ∧
    (∀ c ∈ str "-", c.isAlphanum = false) := by
  refine ⟨by decide, by decide, by decide⟩

/-- Claim C10 as amended, proved for every characterwise ASCII fold and so
in particular for the stdlib NFKD + ASCII-ignore one: the slug is always
non-empty; when the folded, stripped name contains no alphanumeric
character and no hyphen, every character collapses to `_` and the slug
falls back to `produto`; hyphens are preserved rather than replaced by
underscores, as in `a-b c ↦ a-b_c` (an all-ASCII name, on which the stdlib
fold is the identity used here). -/
theorem claim10_slug_fallback (fold : Char → List Char) (name : List Char) :
    slug_filename fold name ≠ [] ∧
    ((∀ c ∈ pyStrip ((name.map fold).flatten),
        c.isAlphanum = false ∧ c ≠ '-') → slug_filename fold name = str "produto") ∧
    slug_filename (fun c => [c]) (str "a-b c") = str "a-b_c" := by
  refine ⟨?_, ?_, by decide⟩
  · unfold slug_filename slugify
    dsimp only
    split
    next => decide
    next hne => exact hne
  · intro hall
    unfold slug_filename slugify
    dsimp only
    have hsafe : (pyStrip ((name.map fold).flatten)).map
          (fun ch => if ch.isAlphanum ∨ ch = '-' ∨ ch = '_' then ch else '_')
        = List.replicate (pyStrip ((name.map fold).flatten)).length '_' := by
      refine List.eq_replicate_iff.mpr ⟨by simp, ?_⟩
      intro b hb
      obtain ⟨x, hx, rfl⟩ := List.mem_map.mp hb
      obtain ⟨hx1, hx2⟩ := hall x hx
      by_cases hx3 : x = '_'
      · simp [hx3]
      · rw [if_neg]
        intro hor
        rcases hor with h' | h' | h'
        · rw [hx1] at h'; exact absurd h' (by simp)
        · exact hx2 h'
        · exact hx3 h'
    rw [hsafe]
    have hsplit : ∀ n : ℕ,
        List.splitOn '_' (List.replicate n '_') = List.replicate (n + 1) ([] : List Char) := by
      intro n
      induction n with
      | zero => rfl
      | succ k ih =>
        have ih' := ih
        simp only [List.splitOn] at ih'
        simp [List.splitOn, List.replicate_succ, List.splitOnP_cons, ih']
    rw [hsplit]
    have hfilt : ∀ m : ℕ,
        (List.replicate m ([] : List Char)).filter (fun p => p ≠ []) = [] := by
      intro m
      induction m with
      | zero => rfl
      | succ k ih => simp [List.replicate_succ, List.filter_cons, ih]
    rw [hfilt]
    simp [List.intercalate]

/-- Witness for C10's fallback clause at a symbols-only all-ASCII name,
instantiating the fold with the identity. -/
theorem claim10_slug_fallback_witness :
    slug_filename (fun c => [c]) (str "@@@") = str "produto" :=
  (claim10_slug_fallback (fun c => [c]) (str "@@@")).2.1 (by decide)

end MLPO
